import Mathlib

/-!
# Verification of the tdmcli template archiver (src/tdmcli.py)

Shallow embedding of the archive encoder (`create_template`), decoder
(`apply_template` / `process_template_file`) and the repeating-key XOR
cipher (`xor_crypt`).  Bytes are modelled as `Nat` (Python ints 0..255;
no operation used here overflows), byte strings as `List Nat`, and text
the program manipulates (relative paths, decimal size fields) stays at
the byte level, exactly as the program reads and writes it.

Fallible steps (Python exceptions inside a decode task) are modelled
with `Option`: `process_template_file` returns `none` where the Python
function would raise (missing SIZE line, non-numeric SIZE field).
Concurrency: the thread pool dispatches one task per record/file; the
model lists the task results in submission order, which the claims we
settle never distinguish from completion order.
-/

namespace Tdmcli

/-- ASCII whitespace bytes stripped by Python `bytes.strip()`
(space, tab, newline, carriage return, vertical tab, form feed). -/
def isSpaceByte (b : Nat) : Bool :=
  b == 32 || b == 9 || b == 10 || b == 13 || b == 11 || b == 12

/-- `bytes.lstrip()`. -/
def lstrip (l : List Nat) : List Nat := l.dropWhile isSpaceByte

/-- `bytes.rstrip()`. -/
def rstrip (l : List Nat) : List Nat := (l.reverse.dropWhile isSpaceByte).reverse

/-- Python `bytes.strip()`: whitespace removed from both ends. -/
def strip (l : List Nat) : List Nat := rstrip (lstrip l)

/-- ASCII decimal digit byte. -/
def isDigit (b : Nat) : Bool := 48 ≤ b && b ≤ 57

/-- Python `int()` applied to an (already stripped) ASCII byte string, for
the non-negative decimal literals the archive format uses: defined (`some`)
exactly on non-empty all-digit strings, `none` models the `ValueError`
raised on anything else (the encoder never emits signs or underscores). -/
def parseNum (l : List Nat) : Option Nat :=
  if !l.isEmpty && l.all isDigit then
    some (l.foldl (fun a d => 10 * a + (d - 48)) 0)
  else
    none

/-- Decimal digits of `n`, most significant first, with structural fuel
(`fuel > n` suffices). -/
def decDigits : Nat → Nat → List Nat
  | 0, _ => []
  | fuel + 1, n => if n < 10 then [n] else decDigits fuel (n / 10) ++ [n % 10]

/-- The bytes of Python `f"{n}"` for a natural number `n`
(standard decimal, `0` printed as `"0"`). -/
def natToDec (n : Nat) : List Nat := (decDigits (n + 1) n).map (fun d => d + 48)

/-- The bytes of the hardcoded key `KEY = "tdmcliKeyy"` (ASCII). -/
def keyBytes : List Nat := [116, 100, 109, 99, 108, 105, 75, 101, 121, 121]

/-- `xor_crypt(data, key)`: repeating-key XOR,
`[b ^ key_bytes[i % key_len] for i, b in enumerate(data)]`.
(Python raises `ZeroDivisionError` on an empty key; the `getD` default is
never reached for the non-empty keys the claims quantify over.) -/
def xor_crypt (data key : List Nat) : List Nat :=
  data.enum.map (fun ib => ib.2 ^^^ key.getD (ib.1 % key.length) 0)

/-- The bytes of `"FILE: "`. -/
def fileMarker : List Nat := [70, 73, 76, 69, 58, 32]

/-- The bytes of `"SIZE: "`. -/
def sizeMarker : List Nat := [83, 73, 90, 69, 58, 32]

/-- The bytes of `"END_OF_FILE"`. -/
def eofBody : List Nat := [69, 78, 68, 95, 79, 70, 95, 70, 73, 76, 69]

/-- The bytes of the literal trailer `b"\nEND_OF_FILE\n"`. -/
def eofMarker : List Nat := [10] ++ eofBody ++ [10]

/-- The line `"END_OF_FILE\n"` as the decoder's `readlines` sees it. -/
def eofLine : List Nat := eofBody ++ [10]

/-- One record as `create_template` writes it: the four consecutive
`template_file.write` calls for a file with relative path `p` and
plaintext content `c` (`FILE: ` line, `SIZE: ` line, ciphertext,
`b"\nEND_OF_FILE\n"`). -/
def encRecord (p c : List Nat) : List Nat :=
  (fileMarker ++ p ++ [10]) ++
    (sizeMarker ++ natToDec (xor_crypt c keyBytes).length ++ [10]) ++
    xor_crypt c keyBytes ++ eofMarker

/-- The archive bytes `create_template` produces for the enumerated file
list `files` (each element: relative path, plaintext content).  The
collector thread appends one record per file; the model lists records in
enumeration order (completion order is a permutation, and every property
proved below quantifies over the whole list). -/
def create_template (files : List (List Nat × List Nat)) : List Nat :=
  (files.map (fun f => encRecord f.1 f.2)).flatten

/-- `readlines` worker: split a byte stream after every `\n`, keeping the
terminator; a trailing unterminated piece is kept, empty input gives no
lines.  `acc` holds the current line's bytes in reverse. -/
def splitLinesAux : List Nat → List Nat → List (List Nat)
  | acc, [] => if acc.isEmpty then [] else [acc.reverse]
  | acc, b :: rest =>
    if b == 10 then (acc.reverse ++ [10]) :: splitLinesAux [] rest
    else splitLinesAux (b :: acc) rest

/-- Python `file.readlines()` on the whole archive byte stream. -/
def splitLines (l : List Nat) : List (List Nat) := splitLinesAux [] l

/-- `process_template_file(lines, start_index)`, given the suffix of
`lines` from `start_index` on (the function reads only `lines[i]`,
`lines[i+1]` and `lines[i+2:]`): recover the file name as
`lines[i][6:].strip()`, the size as `int(lines[i+1][6:].strip())`, and
the content as `xor_crypt(b''.join(lines[i+2:])[:size], KEY)`.  `none`
models the exception the Python worker raises (IndexError when no SIZE
line exists, ValueError when the size field is not a number); `some`
carries the (path, bytes) pair the worker writes to disk. -/
def process_template_file (l : List (List Nat)) : Option (List Nat × List Nat) :=
  match l with
  | l0 :: l1 :: rest =>
    match parseNum (strip (l1.drop 6)) with
    | some size => some (strip (l0.drop 6), xor_crypt ((rest.flatten).take size) keyBytes)
    | none => none
  | _ => none

/-- The scanning loop of `apply_template`: walk the line list; at a line
starting with `b"FILE: "` submit `process_template_file` for the suffix
beginning there and jump 3 lines ahead; otherwise advance one line.
Returns the submitted tasks' results in submission order. -/
def applyScan : List (List Nat) → List (Option (List Nat × List Nat))
  | [] => []
  | [l0] =>
    if fileMarker.isPrefixOf l0 then [process_template_file [l0]] else []
  | [l0, l1] =>
    if fileMarker.isPrefixOf l0 then [process_template_file [l0, l1]]
    else applyScan [l1]
  | l0 :: l1 :: l2 :: rest =>
    if fileMarker.isPrefixOf l0 then
      process_template_file (l0 :: l1 :: l2 :: rest) :: applyScan rest
    else applyScan (l1 :: l2 :: rest)

/-- The decode pipeline of `apply_template` on the raw archive bytes:
`readlines`, then the scan/dispatch loop. -/
def decodeArchive (a : List Nat) : List (Option (List Nat × List Nat)) :=
  applyScan (splitLines a)

/-- `total_files` as `apply_template` computes it (line 105):
the number of archive lines starting with `b"FILE: "`. -/
def totalFiles (a : List Nat) : Nat :=
  ((splitLines a).filter (fun l => fileMarker.isPrefixOf l)).length

/-- A destination directory modelled as an association list from path
bytes to content bytes; a write replaces any previous file at that path. -/
def setFile (fs : List (List Nat × List Nat)) (p c : List Nat) :
    List (List Nat × List Nat) :=
  (p, c) :: fs.filter (fun e => !(e.1 == p))

/-- Apply the decode tasks' writes to a destination directory (failed
tasks write nothing). -/
def applyWrites (ws : List (Option (List Nat × List Nat)))
    (fs : List (List Nat × List Nat)) : List (List Nat × List Nat) :=
  ws.foldl (fun s w => match w with | some pc => setFile s pc.1 pc.2 | none => s) fs

/-- `apply_template`: `found` is the `os.path.exists(template_path)` test;
when the template file is missing the function prints not-found and
returns before opening, reading or scanning anything, leaving the
destination `fs` untouched (second component `false` = the not-found
report, `true` = the pipeline ran). -/
def apply_template (found : Bool) (archive : List Nat)
    (fs : List (List Nat × List Nat)) : List (List Nat × List Nat) × Bool :=
  if found then (applyWrites (decodeArchive archive) fs, true) else (fs, false)

/-- The record-writing loop of `create_template` over the enumerated
files, where a file's content is `none` when reading it raises (unreadable
file): records of completed reads are written to the already-open
destination until the first failing `future.result()` propagates; the
records written so far stay in the file.  Returns (bytes written,
completed-without-error flag). -/
def create_template_run : List (List Nat × Option (List Nat)) → List Nat × Bool
  | [] => ([], true)
  | (p, some c) :: rest =>
    ((encRecord p c ++ (create_template_run rest).1), (create_template_run rest).2)
  | (_, none) :: _ => ([], false)

/-- `create_template` including the destination open: when
`open(template_path, 'wb')` itself fails (`destOk = false`) no destination
file is produced at all (`none`); otherwise the run loop writes into it. -/
def create_template_io (destOk : Bool) (files : List (List Nat × Option (List Nat))) :
    Option (List Nat) × Bool :=
  if destOk then (some (create_template_run files).1, (create_template_run files).2)
  else (none, false)

/-- Ciphertext whose lines never start a spurious record: no line of
`splitLines (e ++ "\n")` (the ciphertext as it sits in the archive,
terminated by the trailer's first byte) begins with `b"FILE: "`. -/
def scanSafe (e : List Nat) : Bool :=
  (splitLines (e ++ [10])).all (fun l => !(fileMarker.isPrefixOf l))

/-! ## Line-splitting lemmas -/

theorem flatten_splitLinesAux (l : List Nat) : ∀ acc,
    (splitLinesAux acc l).flatten = acc.reverse ++ l := by
  induction l with
  | nil =>
    intro acc
    by_cases h : acc = [] <;> simp [splitLinesAux, h]
  | cons b rest ih =>
    intro acc
    by_cases hb : b = 10
    · subst hb
      simp [splitLinesAux, ih []]
    · simp [splitLinesAux, hb, ih (b :: acc)]

theorem flatten_splitLines (l : List Nat) : (splitLines l).flatten = l := by
  simpa using flatten_splitLinesAux l []

theorem splitLinesAux_line (a : List Nat) (h : (10 : Nat) ∉ a) : ∀ acc b,
    splitLinesAux acc (a ++ 10 :: b) = (acc.reverse ++ a ++ [10]) :: splitLines b := by
  induction a with
  | nil => intro acc b; simp [splitLinesAux, splitLines]
  | cons x a ih =>
    intro acc b
    have hx : ¬ x = 10 := fun hx => h (by simp [hx])
    have hmem : (10 : Nat) ∉ a := fun hm => h (List.mem_cons_of_mem x hm)
    simp [splitLinesAux, hx, ih hmem (x :: acc) b]

theorem splitLines_line (a b : List Nat) (h : (10 : Nat) ∉ a) :
    splitLines (a ++ 10 :: b) = (a ++ [10]) :: splitLines b := by
  simpa [splitLines] using splitLinesAux_line a h [] b

theorem splitLinesAux_append_term (e : List Nat) : ∀ acc b,
    splitLinesAux acc ((e ++ [10]) ++ b) =
      splitLinesAux acc (e ++ [10]) ++ splitLines b := by
  induction e with
  | nil =>
    intro acc b
    simp [splitLinesAux, splitLines]
  | cons x e ih =>
    intro acc b
    by_cases hx : x = 10
    · subst hx
      have h1 := ih [] b
      simp [splitLinesAux]
      simpa using h1
    · have h1 := ih (x :: acc) b
      simp [splitLinesAux, hx]
      simpa using h1

theorem splitLines_append_term (e b : List Nat) :
    splitLines ((e ++ [10]) ++ b) = splitLines (e ++ [10]) ++ splitLines b :=
  splitLinesAux_append_term e [] b

theorem splitLinesAux_term_ne_nil (e : List Nat) : ∀ acc,
    splitLinesAux acc (e ++ [10]) ≠ [] := by
  induction e with
  | nil => intro acc; simp [splitLinesAux]
  | cons x e ih =>
    intro acc
    by_cases hx : x = 10
    · subst hx
      simp [splitLinesAux]
    · simp [splitLinesAux, hx, ih (x :: acc)]

theorem splitLines_term_ne_nil (e : List Nat) : splitLines (e ++ [10]) ≠ [] :=
  splitLinesAux_term_ne_nil e []

/-! ## Strip lemmas -/

theorem dropWhile_eq_self_of_not_space (l : List Nat)
    (h : ∀ b ∈ l, isSpaceByte b = false) : l.dropWhile isSpaceByte = l := by
  cases l with
  | nil => rfl
  | cons a l => simp [List.dropWhile_cons, h a (List.mem_cons_self a l)]

theorem strip_eq_self (l : List Nat) (h : ∀ b ∈ l, isSpaceByte b = false) :
    strip l = l := by
  have h1 : lstrip l = l := dropWhile_eq_self_of_not_space l h
  have h2 : rstrip l = l := by
    have := dropWhile_eq_self_of_not_space l.reverse
      (fun b hb => h b (List.mem_reverse.mp hb))
    simp [rstrip, this]
  simp [strip, h1, h2]

theorem rstrip_append_newline (l : List Nat) : rstrip (l ++ [10]) = rstrip l := by
  simp [rstrip, List.reverse_append, List.dropWhile_cons, isSpaceByte]

theorem strip_append_newline (l : List Nat) : strip (l ++ [10]) = strip l := by
  by_cases h : l.dropWhile isSpaceByte = []
  · simp [strip, lstrip, List.dropWhile_append, h, rstrip, List.dropWhile, isSpaceByte]
  · simp only [strip, lstrip, List.dropWhile_append, List.isEmpty_iff, h, if_neg]
    exact rstrip_append_newline _

/-! ## Decimal printing and parsing lemmas -/

theorem decDigits_lt_ten : ∀ fuel n d, d ∈ decDigits fuel n → d < 10 := by
  intro fuel
  induction fuel with
  | zero => intro n d hd; simp [decDigits] at hd
  | succ fuel ih =>
    intro n d hd
    by_cases hn : n < 10
    · simp [decDigits, hn] at hd
      omega
    · simp only [decDigits, if_neg hn, List.mem_append, List.mem_singleton] at hd
      rcases hd with hd | hd
      · exact ih (n / 10) d hd
      · subst hd; exact Nat.mod_lt n (by omega)

theorem natToDec_digit (n b : Nat) (hb : b ∈ natToDec n) : isDigit b = true := by
  simp only [natToDec, List.mem_map] at hb
  obtain ⟨d, hd, rfl⟩ := hb
  have := decDigits_lt_ten (n + 1) n d hd
  simp [isDigit]
  omega

theorem natToDec_not_space (n b : Nat) (hb : b ∈ natToDec n) :
    isSpaceByte b = false := by
  have := natToDec_digit n b hb
  simp only [isDigit, Bool.and_eq_true, decide_eq_true_eq] at this
  simp [isSpaceByte]
  omega

theorem natToDec_ne_nil (n : Nat) : natToDec n ≠ [] := by
  simp only [natToDec, ne_eq, List.map_eq_nil_iff]
  by_cases hn : n < 10 <;> simp [decDigits, hn]

theorem foldl_decDigits : ∀ fuel n a, n < fuel →
    (decDigits fuel n).foldl (fun x d => 10 * x + d) a =
      a * 10 ^ (decDigits fuel n).length + n := by
  intro fuel
  induction fuel with
  | zero => intro n a h; omega
  | succ fuel ih =>
    intro n a h
    by_cases hn : n < 10
    · simp [decDigits, hn]
      ring
    · have hrec : n / 10 < fuel :=
        lt_of_lt_of_le (Nat.div_lt_self (by omega) (by omega)) (by omega)
      simp only [decDigits, if_neg hn, List.foldl_append, List.foldl_cons,
        List.foldl_nil, List.length_append, List.length_singleton]
      rw [ih (n / 10) a hrec]
      have hdm : 10 * (n / 10) + n % 10 = n := Nat.div_add_mod n 10
      calc 10 * (a * 10 ^ (decDigits fuel (n / 10)).length + n / 10) + n % 10
          = a * 10 ^ ((decDigits fuel (n / 10)).length + 1)
              + (10 * (n / 10) + n % 10) := by ring
        _ = a * 10 ^ ((decDigits fuel (n / 10)).length + 1) + n := by rw [hdm]

theorem parseNum_natToDec (n : Nat) : parseNum (natToDec n) = some n := by
  have hne : (natToDec n).isEmpty = false := by
    simp [List.isEmpty_iff, natToDec_ne_nil n]
  have hall : (natToDec n).all isDigit = true :=
    List.all_eq_true.mpr (fun b hb => natToDec_digit n b hb)
  simp only [parseNum, hne, hall, Bool.not_false, Bool.and_self, if_pos rfl,
    Option.some_inj]
  simp only [natToDec, List.foldl_map]
  have : ((fun a d => 10 * a + (d + 48 - 48)) : Nat → Nat → Nat)
      = fun a d => 10 * a + d := by
    funext a d
    simp
  rw [this, foldl_decDigits (n + 1) n 0 (by omega)]
  simp

theorem strip_natToDec_newline (n : Nat) :
    strip (natToDec n ++ [10]) = natToDec n := by
  rw [strip_append_newline]
  exact strip_eq_self _ (natToDec_not_space n)

/-! ## Cipher lemmas -/

theorem xor_crypt_length (x k : List Nat) : (xor_crypt x k).length = x.length := by
  simp [xor_crypt]

theorem xor_crypt_getElem (x k : List Nat) (i : Nat) (hx : i < x.length)
    (h : i < (xor_crypt x k).length) :
    (xor_crypt x k)[i] = x[i] ^^^ k.getD (i % k.length) 0 := by
  simp [xor_crypt]

theorem xor_crypt_xor_crypt (x k : List Nat) :
    xor_crypt (xor_crypt x k) k = x := by
  apply List.ext_getElem
  · simp [xor_crypt_length]
  · intro i h1 h2
    have h3 : i < (xor_crypt x k).length := by
      rw [xor_crypt_length]
      exact h2
    rw [xor_crypt_getElem _ _ _ h3 h1, xor_crypt_getElem _ _ _ h2 h3]
    rw [Nat.xor_assoc, Nat.xor_self, Nat.xor_zero]

/-! ## Marker and scanner lemmas -/

theorem isPrefixOf_append_self (l t : List Nat) : l.isPrefixOf (l ++ t) = true := by
  induction l with
  | nil => simp
  | cons a l ih => simp [List.isPrefixOf_cons₂, ih]

theorem fileMarker_not_prefix_size (x : List Nat) :
    fileMarker.isPrefixOf (sizeMarker ++ x) = false := by
  simp [fileMarker, sizeMarker, List.isPrefixOf_cons₂]

theorem fileMarker_not_prefix_eof : fileMarker.isPrefixOf eofLine = false := by
  decide

theorem not_isPrefix_of_eq_false {l₁ l₂ : List Nat}
    (h : l₁.isPrefixOf l₂ = false) : ¬ l₁ <+: l₂ := by
  intro hpre
  rw [← List.isPrefixOf_iff_prefix] at hpre
  rw [h] at hpre
  exact Bool.false_ne_true hpre

theorem applyScan_cons_neg (l0 : List Nat) (rest : List (List Nat))
    (h : fileMarker.isPrefixOf l0 = false) :
    applyScan (l0 :: rest) = applyScan rest := by
  match rest with
  | [] => simp [applyScan, h]
  | [l1] => simp [applyScan, h]
  | l1 :: l2 :: rest' => simp [applyScan, h]

theorem applyScan_cons_pos (l0 : List Nat) (rest : List (List Nat))
    (h : fileMarker.isPrefixOf l0 = true) :
    applyScan (l0 :: rest) =
      process_template_file (l0 :: rest) :: applyScan (rest.drop 2) := by
  match rest with
  | [] => simp [applyScan, h]
  | [l1] => simp [applyScan, h]
  | l1 :: l2 :: rest' => simp [applyScan, h]

theorem applyScan_skip (xs : List (List Nat))
    (h : ∀ l ∈ xs, fileMarker.isPrefixOf l = false) : ∀ ys,
    applyScan (xs ++ ys) = applyScan ys := by
  induction xs with
  | nil => intro ys; rfl
  | cons x xs ih =>
    intro ys
    rw [List.cons_append, applyScan_cons_neg x (xs ++ ys) (h x (by simp))]
    exact ih (fun l hl => h l (List.mem_cons_of_mem x hl)) ys

/-- The lines `readlines` produces for one record followed by the rest of
the archive, when the path contains no newline byte: the `FILE: ` line,
the `SIZE: ` line, the ciphertext's own lines (terminated by the
trailer's leading newline), the `END_OF_FILE` line, then the rest. -/
theorem splitLines_encRecord (p c b : List Nat) (hp : (10 : Nat) ∉ p) :
    splitLines (encRecord p c ++ b) =
      (fileMarker ++ p ++ [10]) ::
        (sizeMarker ++ natToDec (xor_crypt c keyBytes).length ++ [10]) ::
          (splitLines (xor_crypt c keyBytes ++ [10]) ++ eofLine :: splitLines b) := by
  have hne10 : (10 : Nat) ∉ natToDec (xor_crypt c keyBytes).length := by
    intro hmem
    have := natToDec_digit _ 10 hmem
    simp [isDigit] at this
  have hp1 : (10 : Nat) ∉ fileMarker ++ p := by
    intro hmem
    rcases List.mem_append.mp hmem with hm | hm
    · simp [fileMarker] at hm
    · exact hp hm
  have hp2 : (10 : Nat) ∉ sizeMarker ++ natToDec (xor_crypt c keyBytes).length := by
    intro hmem
    rcases List.mem_append.mp hmem with hm | hm
    · simp [sizeMarker] at hm
    · exact hne10 hm
  have hp3 : (10 : Nat) ∉ eofBody := by decide
  have hshape : encRecord p c ++ b =
      (fileMarker ++ p) ++ 10 ::
        ((sizeMarker ++ natToDec (xor_crypt c keyBytes).length) ++ 10 ::
          ((xor_crypt c keyBytes ++ [10]) ++ (eofBody ++ 10 :: b))) := by
    simp [encRecord, eofMarker]
  rw [hshape, splitLines_line _ _ hp1, splitLines_line _ _ hp2,
    splitLines_append_term, splitLines_line _ _ hp3]
  simp [eofLine]

/-- Decoding one record at the head of the archive: the scanner matches
the `FILE: ` line, the worker recovers exactly (path stripped, original
content), and scanning resumes at the rest of the archive.  Needs the
path newline-free and the ciphertext's lines free of `FILE: ` starts. -/
theorem decode_record_step (p c b : List Nat) (hp : (10 : Nat) ∉ p)
    (hsafe : scanSafe (xor_crypt c keyBytes) = true) :
    applyScan (splitLines (encRecord p c ++ b)) =
      some (strip p, c) :: applyScan (splitLines b) := by
  rw [splitLines_encRecord p c b hp]
  rw [applyScan_cons_pos _ _ (by
    have h1 := isPrefixOf_append_self fileMarker (p ++ [10])
    rw [← List.append_assoc] at h1
    exact h1)]
  have hsafe' : ∀ l ∈ splitLines (xor_crypt c keyBytes ++ [10]),
      fileMarker.isPrefixOf l = false := by
    intro l hl
    simpa using List.all_eq_true.mp hsafe l hl
  obtain ⟨ch0, chs, hch⟩ :=
    List.exists_cons_of_ne_nil (splitLines_term_ne_nil (xor_crypt c keyBytes))
  congr 1
  · have hparse : parseNum (strip
        ((sizeMarker ++ natToDec (xor_crypt c keyBytes).length ++ [10]).drop 6))
        = some (xor_crypt c keyBytes).length := by
      rw [List.append_assoc, List.drop_left' (show sizeMarker.length = 6 from rfl),
        strip_natToDec_newline, parseNum_natToDec]
    have hname : strip ((fileMarker ++ p ++ [10]).drop 6) = strip p := by
      rw [List.append_assoc, List.drop_left' (show fileMarker.length = 6 from rfl),
        strip_append_newline]
    have hjoin : ((splitLines (xor_crypt c keyBytes ++ [10]) ++
        eofLine :: splitLines b)).flatten =
        xor_crypt c keyBytes ++ ([10] ++ (eofLine ++ b)) := by
      rw [List.flatten_append, flatten_splitLines, List.flatten_cons,
        flatten_splitLines]
      simp
    have htake : ((splitLines (xor_crypt c keyBytes ++ [10]) ++
        eofLine :: splitLines b)).flatten.take (xor_crypt c keyBytes).length =
        xor_crypt c keyBytes := by
      rw [hjoin, List.take_left']
      rfl
    simp only [process_template_file, hparse, hname, htake, xor_crypt_xor_crypt]
  · rw [hch]
    have hchs : ∀ l ∈ chs, fileMarker.isPrefixOf l = false := by
      intro l hl
      exact hsafe' l (by rw [hch]; exact List.mem_cons_of_mem ch0 hl)
    simp only [List.cons_append, List.drop_succ_cons, List.drop_zero]
    rw [applyScan_skip chs hchs (eofLine :: splitLines b)]
    exact applyScan_cons_neg eofLine (splitLines b) fileMarker_not_prefix_eof

/-- Core decode/encode theorem: applying an archive built from `files`
performs, in order, one successful write per file, to the stripped
relative path, with the original content — provided every path is
newline-free and every ciphertext is `scanSafe`. -/
theorem decode_create (files : List (List Nat × List Nat))
    (h : ∀ f ∈ files, (10 : Nat) ∉ f.1 ∧ scanSafe (xor_crypt f.2 keyBytes) = true) :
    decodeArchive (create_template files) =
      files.map (fun f => some (strip f.1, f.2)) := by
  induction files with
  | nil => rfl
  | cons f fs ih =>
    have hf := h f (List.mem_cons_self f fs)
    have hcreate : create_template (f :: fs) =
        encRecord f.1 f.2 ++ create_template fs := by
      simp [create_template]
    rw [decodeArchive, hcreate, decode_record_step f.1 f.2 _ hf.1 hf.2,
      List.map_cons]
    congr 1
    exact ih (fun g hg => h g (List.mem_cons_of_mem f hg))

theorem xor_crypt_getD (x k : List Nat) (i : Nat) (h : i < x.length) :
    (xor_crypt x k).getD i 0 = x.getD i 0 ^^^ k.getD (i % k.length) 0 := by
  have h2 : i < (xor_crypt x k).length := by
    rw [xor_crypt_length]
    exact h
  rw [List.getD_eq_getElem?_getD, List.getElem?_eq_getElem h2,
    List.getD_eq_getElem?_getD, List.getElem?_eq_getElem h]
  simp only [Option.getD_some]
  exact xor_crypt_getElem x k i h h2

/-- The archive's `FILE: `-line count (`total_files`) is one per encoded
file, under the same path/ciphertext side conditions. -/
theorem totalFiles_create (files : List (List Nat × List Nat))
    (h : ∀ f ∈ files, (10 : Nat) ∉ f.1 ∧ scanSafe (xor_crypt f.2 keyBytes) = true) :
    totalFiles (create_template files) = files.length := by
  induction files with
  | nil => rfl
  | cons f fs ih =>
    have hf := h f (List.mem_cons_self f fs)
    have hcreate : create_template (f :: fs) =
        encRecord f.1 f.2 ++ create_template fs := by
      simp [create_template]
    have h0 : fileMarker.isPrefixOf (fileMarker ++ f.1 ++ [10]) = true := by
      have h1 := isPrefixOf_append_self fileMarker (f.1 ++ [10])
      rw [← List.append_assoc] at h1
      exact h1
    have h1 : fileMarker.isPrefixOf
        (sizeMarker ++ natToDec (xor_crypt f.2 keyBytes).length ++ [10]) = false := by
      rw [List.append_assoc]
      exact fileMarker_not_prefix_size _
    have h2 : (splitLines (xor_crypt f.2 keyBytes ++ [10])).filter
        (fun l => fileMarker.isPrefixOf l) = [] := by
      rw [List.filter_eq_nil_iff]
      intro l hl
      have h3 := List.all_eq_true.mp hf.2 l hl
      simpa using not_isPrefix_of_eq_false (by simpa using h3)
    rw [totalFiles, hcreate, splitLines_encRecord _ _ _ hf.1]
    rw [List.filter_cons_of_pos h0,
      List.filter_cons_of_neg (by simpa using not_isPrefix_of_eq_false h1),
      List.filter_append, h2, List.filter_cons_of_neg
        (by simpa using not_isPrefix_of_eq_false fileMarker_not_prefix_eof)]
    have ih2 := ih (fun g hg => h g (List.mem_cons_of_mem f hg))
    rw [totalFiles] at ih2
    simp [ih2]

/-! ## Claims -/

/-- C3: `xor_crypt` is an involution for every non-empty key: applying the
repeating-key XOR transform twice returns the input, and each output byte
is `input[i] XOR key[i mod len(key)]`.  The transform is a pure total
function of its argument lists (the model's `xor_crypt` is a plain `def`
with no side effects or error outcomes; Python only fails on an empty key,
which the hypothesis excludes). -/
theorem xor_crypt_involutive (x k : List Nat) (_hk : k ≠ []) :
    xor_crypt (xor_crypt x k) k = x ∧
      ∀ i, i < x.length →
        (xor_crypt x k).getD i 0 = x.getD i 0 ^^^ k.getD (i % k.length) 0 := by
  refine ⟨xor_crypt_xor_crypt x k, ?_⟩
  intro i hi
  exact xor_crypt_getD x k i hi

/-- Witness for C3 at `x = [0, 200, 37]`, `k = [5, 6]`. -/
theorem xor_crypt_involutive_witness :
    xor_crypt (xor_crypt [0, 200, 37] [5, 6]) [5, 6] = [0, 200, 37] ∧
      ∀ i, i < ([0, 200, 37] : List Nat).length →
        (xor_crypt [0, 200, 37] [5, 6]).getD i 0 =
          ([0, 200, 37] : List Nat).getD i 0 ^^^
            ([5, 6] : List Nat).getD (i % ([5, 6] : List Nat).length) 0 :=
  xor_crypt_involutive [0, 200, 37] [5, 6] (by decide)

/-- C6: every record `create_template` emits has exactly the layout
`FILE: <path>\n`, `SIZE: <decimal ciphertext length>\n`, the ciphertext
bytes, then `\nEND_OF_FILE\n`; the SIZE field is the decimal rendering of
the ciphertext length (it parses back to it), the ciphertext length equals
the plaintext length, and the record is what lands in the archive
stream. -/
theorem record_framing (p c : List Nat) :
    encRecord p c =
        fileMarker ++ p ++ [10] ++
          (sizeMarker ++ natToDec (xor_crypt c keyBytes).length ++ [10]) ++
          xor_crypt c keyBytes ++ eofMarker ∧
      (xor_crypt c keyBytes).length = c.length ∧
      parseNum (natToDec (xor_crypt c keyBytes).length) = some c.length ∧
      create_template [(p, c)] = encRecord p c := by
  refine ⟨by simp [encRecord], xor_crypt_length c keyBytes, ?_, by simp [create_template]⟩
  rw [xor_crypt_length, parseNum_natToDec]

/-- C8: when the named template file does not exist, `apply_template`
reports not-found (`false`) and returns before running any of the decode
pipeline: the destination directory is returned exactly as it was. -/
theorem apply_template_missing_template (archive : List Nat)
    (fs : List (List Nat × List Nat)) :
    apply_template false archive fs = (fs, false) := rfl

/-- C9: the decode worker takes the ciphertext as the first SIZE bytes of
the concatenation of all archive lines after the SIZE line — the whole
remainder of the file, markers included; nothing in the computation
consults the `END_OF_FILE` marker or compares SIZE against the record's
actual extent, and when fewer than SIZE bytes remain the slice silently
yields just the available bytes. -/
theorem decoder_slices_joined_remainder (l0 l1 : List Nat)
    (rest : List (List Nat)) (n : Nat)
    (hparse : parseNum (strip (l1.drop 6)) = some n) :
    process_template_file (l0 :: l1 :: rest) =
        some (strip (l0.drop 6), xor_crypt (rest.flatten.take n) keyBytes) ∧
      (rest.flatten.length ≤ n →
        process_template_file (l0 :: l1 :: rest) =
          some (strip (l0.drop 6), xor_crypt rest.flatten keyBytes)) := by
  constructor
  · simp [process_template_file, hparse]
  · intro hlen
    simp [process_template_file, hparse, List.take_of_length_le hlen]

/-- Witness for C9: a record declaring SIZE 99 over 15 remaining bytes
(one ciphertext line plus the `END_OF_FILE` line). -/
theorem decoder_slices_joined_remainder_witness :
    process_template_file
        [fileMarker ++ [97, 10], sizeMarker ++ [57, 57, 10], [1, 2, 10], eofLine] =
        some (strip ((fileMarker ++ [97, 10]).drop 6),
          xor_crypt (([[1, 2, 10], eofLine] : List (List Nat)).flatten.take 99) keyBytes) ∧
      (([[1, 2, 10], eofLine] : List (List Nat)).flatten.length ≤ 99 →
        process_template_file
            [fileMarker ++ [97, 10], sizeMarker ++ [57, 57, 10], [1, 2, 10], eofLine] =
          some (strip ((fileMarker ++ [97, 10]).drop 6),
            xor_crypt ([[1, 2, 10], eofLine] : List (List Nat)).flatten keyBytes)) :=
  decoder_slices_joined_remainder (fileMarker ++ [97, 10])
    (sizeMarker ++ [57, 57, 10]) [[1, 2, 10], eofLine] 99 (by decide)

/-- C2 counterexample: an archive whose single record declares SIZE 100
with only 15 bytes remaining after the SIZE line is not rejected — the
decode succeeds (`some`) and writes the XOR-decode of all 15 available
bytes (ciphertext and trailing marker alike). -/
theorem oversize_size_not_rejected :
    decodeArchive (fileMarker ++ [97] ++ [10] ++ sizeMarker ++ natToDec 100 ++
        [10] ++ [1, 2] ++ eofMarker) =
        [some ([97], xor_crypt ([1, 2] ++ eofMarker) keyBytes)] ∧
      ([1, 2] ++ eofMarker).length < 100 := by
  constructor
  · decide
  · decide

/-- C2 amended: a record whose declared SIZE exceeds the bytes remaining
after the SIZE line is NOT rejected as malformed: the decoder silently
truncates to the bytes available (the Python slice `[:size]` yields
whatever is there) and the write proceeds. -/
theorem oversize_size_truncates (l0 l1 : List Nat) (rest : List (List Nat))
    (n : Nat) (hparse : parseNum (strip (l1.drop 6)) = some n)
    (hlen : rest.flatten.length ≤ n) :
    process_template_file (l0 :: l1 :: rest) =
      some (strip (l0.drop 6), xor_crypt rest.flatten keyBytes) := by
  simp [process_template_file, hparse, List.take_of_length_le hlen]

/-- Witness for C2's amended statement: SIZE 100 over 15 available bytes. -/
theorem oversize_size_truncates_witness :
    process_template_file
        [fileMarker ++ [98, 10], sizeMarker ++ natToDec 100 ++ [10], [1, 2, 10], eofLine] =
      some (strip ((fileMarker ++ [98, 10]).drop 6),
        xor_crypt ([[1, 2, 10], eofLine] : List (List Nat)).flatten keyBytes) :=
  oversize_size_truncates (fileMarker ++ [98, 10])
    (sizeMarker ++ natToDec 100 ++ [10]) [[1, 2, 10], eofLine] 100
    (by decide) (by decide)

/-- C10: the decode worker strips ASCII whitespace from both ends of the
recovered relative path (`lines[i][6:].strip()`), so a source file whose
path has leading or trailing whitespace is written to the stripped path,
not the original one — the round trip is broken for such paths. -/
theorem decoder_strips_path_whitespace (p c : List Nat) (hws : strip p ≠ p)
    (hp : (10 : Nat) ∉ p) (hsafe : scanSafe (xor_crypt c keyBytes) = true) :
    decodeArchive (create_template [(p, c)]) = [some (strip p, c)] ∧
      decodeArchive (create_template [(p, c)]) ≠ [some (p, c)] := by
  have h1 : decodeArchive (create_template [(p, c)]) = [some (strip p, c)] := by
    have h2 := decode_create [(p, c)] (by
      intro f hf
      rcases List.mem_singleton.mp hf with rfl
      exact ⟨hp, hsafe⟩)
    simpa using h2
  refine ⟨h1, ?_⟩
  rw [h1]
  intro hcontra
  apply hws
  have h3 := List.cons.injEq (some (strip p, c)) [] (some (p, c)) [] ▸ hcontra
  simp at h3
  exact h3

/-- Witness for C10 at path `" a"` (leading space), content `"h"`. -/
theorem decoder_strips_path_whitespace_witness :
    decodeArchive (create_template [([32, 97], [104])]) = [some (strip [32, 97], [104])] ∧
      decodeArchive (create_template [([32, 97], [104])]) ≠ [some ([32, 97], [104])] :=
  decoder_strips_path_whitespace [32, 97] [104] (by decide) (by decide) (by decide)

/-- C1 counterexample: the tree with the single file `" a"` (path with a
leading space, content `"h"`) does not round-trip: the decode writes path
`"a"` instead, so the reproduced path set differs from the source tree. -/
theorem whitespace_path_breaks_roundtrip :
    decodeArchive (create_template [([32, 97], [104])]) = [some ([97], [104])] ∧
      decodeArchive (create_template [([32, 97], [104])]) ≠
        [([32, 97], [104])].map some := by
  constructor
  · decide
  · decide

/-- C1 amended: create-then-apply reproduces the tree exactly — same
relative paths (zero-byte files and nested depths included), same bytes —
for every tree in which each relative path contains no newline byte and
no leading/trailing ASCII whitespace, and no file's ciphertext under the
fixed key contains a line beginning with `FILE: `. -/
theorem roundtrip_clean_tree (files : List (List Nat × List Nat))
    (h : ∀ f ∈ files, (10 : Nat) ∉ f.1 ∧ strip f.1 = f.1 ∧
      scanSafe (xor_crypt f.2 keyBytes) = true) :
    decodeArchive (create_template files) = files.map some := by
  rw [decode_create files (fun f hf => ⟨(h f hf).1, (h f hf).2.2⟩)]
  apply List.map_congr_left
  intro f hf
  rw [(h f hf).2.1]

/-- Witness for C1's amended statement: the two-file tree
`{"a": "", "b/c": "hi"}` (one zero-byte file, one nested file). -/
theorem roundtrip_clean_tree_witness :
    decodeArchive (create_template [([97], []), ([98, 47, 99], [104, 105])]) =
      [([97], ([] : List Nat)), ([98, 47, 99], [104, 105])].map some :=
  roundtrip_clean_tree [([97], []), ([98, 47, 99], [104, 105])] (by decide)

/-- C4 counterexample: a record whose ciphertext contains the exact byte
sequence `\nEND_OF_FILE\n` decodes perfectly — the round trip succeeds,
because the decoder never searches for the `END_OF_FILE` marker at all
(it slices the joined remainder by SIZE). -/
theorem eof_marker_in_ciphertext_roundtrips :
    eofMarker <:+:
        xor_crypt (xor_crypt ([72] ++ eofMarker ++ [75]) keyBytes) keyBytes ∧
      decodeArchive (create_template
          [([102], xor_crypt ([72] ++ eofMarker ++ [75]) keyBytes)]) =
        [some ([102], xor_crypt ([72] ++ eofMarker ++ [75]) keyBytes)] := by
  constructor
  · decide
  · decide

/-- C4 amended: an embedded `\nEND_OF_FILE\n` (or `SIZE: ` line) in
ciphertext does not corrupt parsing — such records still round-trip,
since the decoder slices by SIZE and never matches the marker; parsing is
corrupted only when a ciphertext line beyond the record's first
ciphertext line begins with `FILE: ` (a spurious record is dispatched,
see C7's counterexample). -/
theorem marker_in_ciphertext_harmless (p c : List Nat)
    (hp : (10 : Nat) ∉ p) (hws : strip p = p)
    (hsafe : scanSafe (xor_crypt c keyBytes) = true)
    (_hmark : eofMarker <:+: xor_crypt c keyBytes) :
    decodeArchive (create_template [(p, c)]) = [some (p, c)] := by
  have h2 := decode_create [(p, c)] (by
    intro f hf
    rcases List.mem_singleton.mp hf with rfl
    exact ⟨hp, hsafe⟩)
  simpa [hws] using h2

/-- Witness for C4's amended statement: path `"f"`, plaintext chosen so
its ciphertext is `B\nEND_OF_FILE\nC`. -/
theorem marker_in_ciphertext_harmless_witness :
    decodeArchive (create_template
        [([102], xor_crypt ([66] ++ eofMarker ++ [67]) keyBytes)]) =
      [some ([102], xor_crypt ([66] ++ eofMarker ++ [67]) keyBytes)] :=
  marker_in_ciphertext_harmless [102]
    (xor_crypt ([66] ++ eofMarker ++ [67]) keyBytes)
    (by decide) (by decide) (by decide) (by decide)

/-- C5 counterexample: enumerating two files `a` (readable, content `"x"`)
and `b` (unreadable), the create run aborts (`false`) but the destination
is left holding a partial archive: exactly the one record for `a` —
neither empty nor an archive of both enumerated files. -/
theorem partial_archive_left_on_failure :
    create_template_io true [([97], some [120]), ([98], none)] =
        (some (encRecord [97] [120]), false) ∧
      encRecord [97] [120] ≠ [] ∧
      totalFiles (encRecord [97] [120]) = 1 := by
  refine ⟨by decide, by decide, by decide⟩

/-- C5 amended: if the destination archive cannot be opened, nothing is
written at all; an unreadable source file still aborts the operation, but
the destination keeps the records of the files read before the failure —
possibly a partial archive, not "fully written or nothing". -/
theorem create_failure_characterization (destOk : Bool)
    (files : List (List Nat × Option (List Nat))) :
    create_template_io false files = (none, false) ∧
      create_template_run files =
        (create_template ((files.takeWhile (fun f => f.2.isSome)).map
            (fun f => (f.1, f.2.getD []))),
          files.all (fun f => f.2.isSome)) ∧
      (destOk = true → create_template_io destOk files =
        (some (create_template_run files).1, (create_template_run files).2)) := by
  refine ⟨rfl, ?_, ?_⟩
  · induction files with
    | nil => rfl
    | cons f fs ih =>
      obtain ⟨p, oc⟩ := f
      cases oc with
      | none => simp [create_template_run, create_template]
      | some c =>
        simp only [create_template_run, List.takeWhile_cons, Option.isSome_some,
          if_pos rfl, List.map_cons, List.all_cons, Option.getD_some]
        rw [Prod.ext_iff] at ih
        simp [create_template, ih.1, ih.2]
  · intro hd
    simp [create_template_io, hd]

/-- Witness for C5's amended statement at a concrete run: destination
open succeeds, file `a` readable, file `b` unreadable. -/
theorem create_failure_characterization_witness :
    create_template_io false [([97], some [120]), ([98], none)] = (none, false) ∧
      create_template_run [([97], some [120]), ([98], none)] =
        (create_template ((([([97], some [120]), ([98], none)] :
            List (List Nat × Option (List Nat))).takeWhile
              (fun f => f.2.isSome)).map (fun f => (f.1, f.2.getD []))),
          ([([97], some [120]), ([98], none)] :
            List (List Nat × Option (List Nat))).all (fun f => f.2.isSome)) ∧
      (true = true → create_template_io true [([97], some [120]), ([98], none)] =
        (some (create_template_run [([97], some [120]), ([98], none)]).1,
          (create_template_run [([97], some [120]), ([98], none)]).2)) :=
  create_failure_characterization true [([97], some [120]), ([98], none)]

/-- C7 counterexample: a single source file (`N = 1`) whose ciphertext is
`A\nFILE: b\nSIZE: 0\n` yields an archive the scanner reads as two
records: applying it performs two writes (the real file plus a spurious
empty `"b"`), and the archive's own `FILE: `-line count is 2, not 1. -/
theorem spurious_file_line_in_ciphertext :
    decodeArchive (create_template [([102],
        xor_crypt ([65, 10] ++ fileMarker ++ [98] ++ [10] ++ sizeMarker ++
          [48] ++ [10]) keyBytes)]) =
        [some ([102], xor_crypt ([65, 10] ++ fileMarker ++ [98] ++ [10] ++
          sizeMarker ++ [48] ++ [10]) keyBytes), some ([98], [])] ∧
      totalFiles (create_template [([102],
        xor_crypt ([65, 10] ++ fileMarker ++ [98] ++ [10] ++ sizeMarker ++
          [48] ++ [10]) keyBytes)]) = 2 := by
  constructor
  · decide
  · decide

/-- C7 amended: for trees whose paths are newline-free and whose
ciphertexts contain no `FILE: `-initial line, the archive contains exactly
N records (by the decoder's own `FILE: `-line count) and applying it
performs exactly N writes, all successful — zero-byte files included,
whose records are framed like any other. -/
theorem record_and_write_count (files : List (List Nat × List Nat))
    (h : ∀ f ∈ files, (10 : Nat) ∉ f.1 ∧ scanSafe (xor_crypt f.2 keyBytes) = true) :
    totalFiles (create_template files) = files.length ∧
      (decodeArchive (create_template files)).length = files.length ∧
      (decodeArchive (create_template files)).all Option.isSome = true := by
  refine ⟨totalFiles_create files h, ?_, ?_⟩
  · rw [decode_create files h]
    simp
  · rw [decode_create files h, List.all_eq_true]
    intro w hw
    simp only [List.mem_map] at hw
    obtain ⟨f, _, rfl⟩ := hw
    rfl

/-- Witness for C7's amended statement on a two-file tree including a
zero-byte file: 2 records, 2 successful writes. -/
theorem record_and_write_count_witness :
    totalFiles (create_template [([97], []), ([98, 47, 99], [104, 105])]) =
        ([([97], []), ([98, 47, 99], [104, 105])] : List (List Nat × List Nat)).length ∧
      (decodeArchive (create_template [([97], []), ([98, 47, 99], [104, 105])])).length =
        ([([97], []), ([98, 47, 99], [104, 105])] : List (List Nat × List Nat)).length ∧
      (decodeArchive (create_template
        [([97], []), ([98, 47, 99], [104, 105])])).all Option.isSome = true :=
  record_and_write_count [([97], []), ([98, 47, 99], [104, 105])] (by decide)

end Tdmcli
